import Mathlib

/-!
Verification of the USACO problem scraper (`src/scraper.py`, `src/main.py`).

The Python code is shallowly embedded over `List Char` / `String`:
pure text transformations become structural Lean functions, stateful or
effectful code (HTTP fetching, filesystem writes) becomes explicit
oracle-passing functions that additionally return the list of external
operations performed.  All definitions are executable and kernel-reducible
so that concrete witnesses evaluate by `decide` / `rfl`.
-/

namespace Scraper

/-! ### Character classes

`isPySpace` models the character set Python's `str.strip` / `str.rstrip`
(no arguments) and `str.isspace` treat as whitespace.
`isLineBoundary` models the line boundaries recognised by `str.splitlines`.
-/

def isPySpace (c : Char) : Bool :=
  c = ' ' || c = '\t' || c = '\n' || c = '\r' ||
  c = '\x0b' || c = '\x0c' ||
  c = '\x1c' || c = '\x1d' || c = '\x1e' || c = '\x1f' ||
  c = '\x85' || c = '\xa0' || c = '\u1680' ||
  (0x2000 ≤ c.toNat && c.toNat ≤ 0x200a) ||
  c = '\u2028' || c = '\u2029' || c = '\u202f' || c = '\u205f' || c = '\u3000'

def isLineBoundary (c : Char) : Bool :=
  c = '\n' || c = '\r' || c = '\x0b' || c = '\x0c' ||
  c = '\x1c' || c = '\x1d' || c = '\x1e' ||
  c = '\x85' || c = '\u2028' || c = '\u2029'

/-! ### Basic string helpers shared by several Python snippets -/

/-- Python `s.split(sep)` for a single-character separator `sep`:
keeps empty fields, `"".split(sep) == [""]`. -/
def splitOnChar (sep : Char) : List Char → List (List Char)
  | [] => [[]]
  | c :: cs =>
    if c = sep then [] :: splitOnChar sep cs
    else
      match splitOnChar sep cs with
      | [] => [[c]]
      | t :: ts => (c :: t) :: ts

/-- Python `sep.join(parts)` at the character-list level. -/
def pyJoin (sep : List Char) : List (List Char) → List Char
  | [] => []
  | [l] => l
  | l :: ls => l ++ sep ++ pyJoin sep ls

/-- Python `str.splitlines()`: split at every line boundary, treating
`"\r\n"` as a single boundary; no trailing empty line for a final
terminator. -/
def pySplitlines : List Char → List (List Char)
  | [] => []
  | '\r' :: '\n' :: rest => [] :: pySplitlines rest
  | c :: cs =>
    if isLineBoundary c then [] :: pySplitlines cs
    else
      match pySplitlines cs with
      | [] => [[c]]
      | l :: ls => (c :: l) :: ls

/-- Python `line.rstrip()` (no arguments): drop all trailing whitespace. -/
def pyRstrip (l : List Char) : List Char :=
  (l.reverse.dropWhile isPySpace).reverse

/-- Python `not line.strip()`: the line consists only of whitespace. -/
def isBlankL (l : List Char) : Bool :=
  l.all isPySpace

/-! ### `USACOProblem._clean_markdown_text` (scraper.py lines 99-123) -/

/-- The per-line trailing-space fix inside `_clean_markdown_text`:
```
if line.rstrip() != line:          # Has trailing spaces
    if len(line) - len(line.rstrip()) == 1:   # Single trailing space
        line = line.rstrip()       # Remove single trailing space
```
-/
def fixLine (l : List Char) : List Char :=
  if pyRstrip l ≠ l then
    if l.length - (pyRstrip l).length = 1 then pyRstrip l else l
  else l

/-- The loop body of `_clean_markdown_text`: skip a blank line whose
predecessor was blank, otherwise keep the (trailing-space-fixed) line;
`prev_empty` is updated to the current line's blankness either way. -/
def cleanLines : List (List Char) → Bool → List (List Char)
  | [], _ => []
  | l :: ls, prevEmpty =>
    if isBlankL l && prevEmpty then cleanLines ls true
    else fixLine l :: cleanLines ls (isBlankL l)

/-- `USACOProblem._clean_markdown_text`:
`"\n".join(cleaned lines of text.splitlines())`. -/
def cleanMarkdownText (s : String) : String :=
  String.mk (pyJoin ['\n'] (cleanLines (pySplitlines s.data) false))

/-! ### `USACOProblem._format_abreviated_title` (scraper.py lines 185-194)

```
year = contest_title.split(" ")[1]
problem_number = problem_title.split(" ")[1].split(".")[0]
problem_name = "_".join(problem_title.split(" ")[2::])
return f"P{problem_number}_{year}-{problem_name}"
```
A Python out-of-range index raises `IndexError`; this is modelled by
returning `none` when token index 1 is missing. -/
def formatAbreviatedTitle (contest_title problem_title : String) : Option String :=
  match (splitOnChar ' ' contest_title.data).get? 1,
        (splitOnChar ' ' problem_title.data).get? 1 with
  | some year, some numTok =>
    some (String.mk
      ('P' :: (splitOnChar '.' numTok).headD [] ++
       '_' :: year ++
       '-' :: pyJoin ['_'] ((splitOnChar ' ' problem_title.data).drop 2)))
  | _, _ => none

example :
    formatAbreviatedTitle "USACO 2023 December Contest, Bronze" "Problem 2. Hoofball" =
      some "P2_2023-Hoofball" := by decide

example : cleanMarkdownText "a\n\n" = "a\n" := by decide

example : cleanMarkdownText "a\n" = "a" := by decide

/-! ### Python `str.replace` and `in` (substring containment)

`replAux` scans left to right; on a match of `target` (always non-empty at
every call site in the scraper) it emits `repl` and resumes after the
matched occurrence, exactly like CPython's `str.replace`.  The fuel
argument (initialised to the string length, an upper bound on the number
of scanning steps) keeps the recursion structural. -/

def replAux (target repl : List Char) : Nat → List Char → List Char
  | 0, s => s
  | _ + 1, [] => []
  | fuel + 1, c :: cs =>
    if target.isPrefixOf (c :: cs) then
      repl ++ replAux target repl fuel (cs.drop (target.length - 1))
    else c :: replAux target repl fuel cs

/-- Python `s.replace(target, repl)` for non-empty `target` (the scraper
never calls `replace` with an empty pattern; an empty `target` is mapped
to the identity here). -/
def listReplace (s target repl : List Char) : List Char :=
  if target.isEmpty then s else replAux target repl s.length s

/-- Python `s.replace(target, repl)` at the `String` level. -/
def strReplace (s target repl : String) : String :=
  String.mk (listReplace s.data target.data repl.data)

/-- Python `t in s` (substring containment). -/
def containsSub (t : List Char) : List Char → Bool
  | [] => t.isEmpty
  | c :: cs => t.isPrefixOf (c :: cs) || containsSub t cs

example : strReplace "abcabc" "bc" "X" = "aXaX" := by decide
example : containsSub "bc".data "abcd".data = true := by decide
example : containsSub "bd".data "abcd".data = false := by decide

/-! ### Sample-block formatting (scraper.py lines 166-175)

```
for i, (sample_input, sample_output) in enumerate(zip(sample_inputs, sample_outputs)):
    input_target = f"**SAMPLE INPUT:**\n\n{sample_input}"
    formatted_input = f"**SAMPLE INPUT:**\n\n```txt\n{sample_input}\n```"
    problem_text = problem_text.replace(input_target, formatted_input)
    output_target = f"**SAMPLE OUTPUT:**\n\n{sample_output}"
    formatted_output = f"**SAMPLE OUTPUT:**\n\n```txt\n{sample_output}\n```"
    problem_text = problem_text.replace(output_target, formatted_output)
```
-/

def sampleInputTarget (i : String) : String := "**SAMPLE INPUT:**\n\n" ++ i

def sampleInputFormatted (i : String) : String :=
  "**SAMPLE INPUT:**\n\n```txt\n" ++ i ++ "\n```"

def sampleOutputTarget (o : String) : String := "**SAMPLE OUTPUT:**\n\n" ++ o

def sampleOutputFormatted (o : String) : String :=
  "**SAMPLE OUTPUT:**\n\n```txt\n" ++ o ++ "\n```"

/-- One iteration of the sample-formatting loop. -/
def formatSamplePair (text : String) (io : String × String) : String :=
  strReplace
    (strReplace text (sampleInputTarget io.1) (sampleInputFormatted io.1))
    (sampleOutputTarget io.2) (sampleOutputFormatted io.2)

/-- The whole sample-formatting loop: inputs and outputs are paired with
`zip` and folded over the text. -/
def formatSamples (sample_inputs sample_outputs : List String) (text : String) : String :=
  (sample_inputs.zip sample_outputs).foldl formatSamplePair text

/-! ### Error kinds surfaced to the caller (spec section 6)

The Python code raises `ValueError` / `requests.exceptions.ConnectionError`
/ `AttributeError`-`TypeError`-`IndexError` on malformed pages; the spec
names the kinds `InvalidUrl`, `ConnectionFailure`, `MalformedPage`,
`InvalidFileName`, `UnsupportedFileType`, `DirectoryNotFound`. -/

inductive ScrapeError where
  | invalidUrl
  | connectionFailure
  | malformedPage
  | invalidFileName
  | unsupportedFileType
  | directoryNotFound
deriving DecidableEq, Repr

/-! ### `USACOProblem.is_valid_url` (scraper.py lines 37-49) -/

def USACO_BASE_URL : String := "https://usaco.org/"

def PROBLEM_SUBWEBSITE : String := "index.php?page=viewproblem"

/-- `bool(url and url.startswith(cls.USACO_BASE_URL) and cls.PROBLEM_SUBWEBSITE in url)` -/
def is_valid_url (url : String) : Bool :=
  !url.data.isEmpty &&
  USACO_BASE_URL.data.isPrefixOf url.data &&
  containsSub PROBLEM_SUBWEBSITE.data url.data

/-! ### `USACOProblem._fetch_problem_page` (scraper.py lines 51-80)

The network is an oracle `net : Nat → Option α` giving, for each attempt
index, either a response (`some`) or a connection error (`none`).  The
model returns the number of GET attempts issued, the list of `time.sleep`
durations performed (the code sleeps `attempts` after each failure), and
the final outcome.  `remaining` starts at `max_attempts - attempts = 3`,
mirroring the `while response is None and attempts < max_attempts` loop. -/

def fetchRemaining {α : Type} (net : Nat → Option α) (attempts : Nat) :
    Nat → Nat × List Nat × Option α
  | 0 => (0, [], none)
  | remaining + 1 =>
    match net attempts with
    | some r => (1, [], some r)
    | none =>
      let rec' := fetchRemaining net (attempts + 1) remaining
      (rec'.1 + 1, attempts :: rec'.2.1, rec'.2.2)

/-- `_fetch_problem_page`: 3 total attempts starting at attempt 0; if the
loop ends with no response, raise `ConnectionFailure`. -/
def fetchProblemPage {α : Type} (net : Nat → Option α) :
    Nat × List Nat × Except ScrapeError α :=
  match fetchRemaining net 0 3 with
  | (gets, sleeps, some r) => (gets, sleeps, Except.ok r)
  | (gets, sleeps, none) => (gets, sleeps, Except.error ScrapeError.connectionFailure)

/-! ### The parsed problem page (`_parse_problem_data`, scraper.py lines 82-97)

`Page` abstracts the BeautifulSoup view of the fetched HTML:
the first `<button>`'s `onclick` attribute (or `none` when the page has no
button), the stripped texts of all `<h2>` headings in document order, and
the optional `<div class="problem-text">` container.  The container's
sub-element texts are stored already `.strip()`ed, as extracted by
`_format_problem_statement`; `h4s` and `strongs` come from Python sets,
whose iteration order is unspecified — the claims proved below do not
depend on it. -/

structure ProblemDiv where
  text : String
  h4s : List String
  preIns : List String
  preOuts : List String
  strongs : List String

structure Page where
  buttonOnclick : Option String
  h2s : List String
  problemTextDiv : Option ProblemDiv

structure ProblemRecord where
  url : String
  contest_url : String
  contest_title : String
  problem_title : String
  division : String
  abbreviated_title : String
  text : String

def quoteChar : Char := Char.ofNat 39

/-- `USACOProblem._format_problem_statement` (scraper.py lines 125-183).
If the `problem-text` div is absent the literal placeholder is returned
and no formatting pass runs.  Otherwise: clean, bold the `h4` subheaders,
fence the sample blocks, bold the remaining `strong` texts, clean again. -/
def formatProblemStatement (d : Option ProblemDiv) : String :=
  match d with
  | none => "Problem text not found."
  | some div =>
    let t0 := cleanMarkdownText div.text
    let t1 := div.h4s.foldl
      (fun t sh => strReplace t sh ("\n**" ++ sh ++ "**\n")) t0
    let t2 := formatSamples div.preIns div.preOuts t1
    let t3 := div.strongs.foldl
      (fun t b =>
        if b = "SAMPLE INPUT:" ∨ b = "SAMPLE OUTPUT:" then t
        else strReplace t b ("**" ++ b ++ "**")) t2
    cleanMarkdownText t3

/-- `USACOProblem._format_problem` (scraper.py lines 196-205). -/
def formatProblem (contest_title contest_url problem_title url statement : String) : String :=
  cleanMarkdownText
    ("# [" ++ contest_title ++ "](" ++ contest_url ++ ")\n\n" ++
     "## [" ++ problem_title ++ "](" ++ url ++ ")\n\n" ++ statement)

/-- `USACOProblem._parse_problem_data` (scraper.py lines 82-97).
Python raises on a missing button (`TypeError`), a missing quote segment
or missing second heading (`IndexError` / `AttributeError`); the spec
classifies all of these as the hard error `MalformedPage`. -/
def parseProblemData (url : String) (p : Page) : Except ScrapeError ProblemRecord :=
  match p.buttonOnclick with
  | none => Except.error ScrapeError.malformedPage
  | some onclick =>
    match (splitOnChar quoteChar onclick.data).get? 1 with
    | none => Except.error ScrapeError.malformedPage
    | some path =>
      match p.h2s.get? 0, p.h2s.get? 1 with
      | some ct, some pt =>
        match formatAbreviatedTitle ct pt with
        | none => Except.error ScrapeError.malformedPage
        | some ab =>
          let contest_url := USACO_BASE_URL ++ String.mk path
          let statement := formatProblemStatement p.problemTextDiv
          Except.ok
            ⟨url, contest_url, ct, pt,
             String.mk ((splitOnChar ' ' ct.data).getLastD []),
             ab,
             formatProblem ct contest_url pt url statement⟩
      | _, _ => Except.error ScrapeError.malformedPage

/-- `USACOProblem.__init__` (scraper.py lines 16-35): validate the URL
before any fetch; the returned list records the URLs actually fetched,
so an invalid URL provably performs no network call. -/
def initProblem (url : String) (fetch : String → Except ScrapeError Page) :
    List String × Except ScrapeError ProblemRecord :=
  if is_valid_url url then
    match fetch url with
    | Except.ok page => ([url], parseProblemData url page)
    | Except.error e => ([url], Except.error e)
  else ([], Except.error ScrapeError.invalidUrl)

example : is_valid_url "https://usaco.org/index.php?page=viewproblem2&cpid=1301" = true := by
  decide

example : is_valid_url "" = false := by decide

example : is_valid_url "https://example.org/index.php?page=viewproblem2" = false := by decide

example : is_valid_url "https://usaco.org/index.php?page=viewcontest" = false := by decide

/-! ### `USACOProblem.write_problem` (scraper.py lines 207-256)

The filesystem is an oracle (`Fs`): `pathExists` models `os.path.exists`,
`listdir` models `os.listdir`, `cwd` models `os.getcwd()`.  `writeProblem`
returns the list of filesystem operations performed, in order, together
with the outcome, so "no filesystem access before the name check" is
provable.  `os.path` functions are modelled with their POSIX semantics. -/

/-- Split `l` at the LAST occurrence of `ch`:
`some (before, after)` with `l = before ++ ch :: after` and `ch ∉ after`. -/
def splitLastChar (ch : Char) : List Char → Option (List Char × List Char)
  | [] => none
  | c :: cs =>
    match splitLastChar ch cs with
    | some (b, e) => some (c :: b, e)
    | none => if c = ch then some ([], cs) else none

/-- `os.path.splitext` for a name: split at the last dot unless every
character before it (in the base) is itself a dot. -/
def pySplitext (name : List Char) : List Char × List Char :=
  match splitLastChar '.' name with
  | none => (name, [])
  | some (base, ext) =>
    if base.any (fun c => c ≠ '.') then (base, '.' :: ext) else (name, [])

/-- `os.path.dirname` (POSIX). -/
def pyDirname (s : List Char) : List Char :=
  match splitLastChar '/' s with
  | none => []
  | some (pre, _) =>
    let head := pre ++ ['/']
    if head.any (fun c => c ≠ '/') then (head.reverse.dropWhile (fun c => c = '/')).reverse
    else head

/-- `os.path.basename` (POSIX). -/
def pyBasename (s : List Char) : List Char :=
  match splitLastChar '/' s with
  | none => s
  | some (_, post) => post

/-- `os.path.join(dir, file)` (POSIX, two arguments). -/
def pyJoinPath (dir file : String) : String :=
  if file.data.head? = some '/' then file
  else if dir.data.isEmpty || dir.data.getLast? = some '/' then dir ++ file
  else dir ++ "/" ++ file

/-- Python `s.endswith(suffix)`. -/
def endsWithStr (s suffix : String) : Bool :=
  suffix.data.isSuffixOf s.data

def digitChar (d : Nat) : Char :=
  match d with
  | 0 => '0' | 1 => '1' | 2 => '2' | 3 => '3' | 4 => '4'
  | 5 => '5' | 6 => '6' | 7 => '7' | 8 => '8' | 9 => '9'
  | _ => 'X'

def natReprAux : Nat → Nat → List Char
  | 0, _ => []
  | fuel + 1, n =>
    if n < 10 then [digitChar n]
    else natReprAux fuel (n / 10) ++ [digitChar (n % 10)]

/-- Decimal rendering of a natural number, as produced by a Python
f-string `f"...{num}..."`. -/
def natRepr (n : Nat) : String :=
  String.mk (natReprAux (n + 1) n)

example : natRepr 0 = "0" := by decide
example : natRepr 1 = "1" := by decide
example : natRepr 210 = "210" := by decide

/-- `f"{base_name} ({num}){extension}"`. -/
def counterName (base ext : String) (num : Nat) : String :=
  base ++ " (" ++ natRepr num ++ ")" ++ ext

/-- The `while f"{base_name} ({num}){extension}" in existing_files: num += 1`
loop; `fuel` is an upper bound on the number of iterations (the loop
always terminates after at most `existing.length + 1` tests because the
candidate names are pairwise distinct). -/
def findNum (existing : List String) (base ext : String) : Nat → Nat → Nat
  | num, 0 => num
  | num, fuel + 1 =>
    if counterName base ext num ∈ existing then findNum existing base ext (num + 1) fuel
    else num

/-- `base_name, extension = os.path.splitext(file_name)` (scraper.py line 239). -/
def baseOf (file_name : String) : String :=
  String.mk (pySplitext file_name.data).1

/-- `if not extension: extension = ".md"` (scraper.py lines 240-241). -/
def extOf (file_name : String) : String :=
  if (pySplitext file_name.data).2.isEmpty then ".md"
  else String.mk (pySplitext file_name.data).2

/-- scraper.py lines 239-252, from `base_name, extension = os.path.splitext`
to the final `save_as`: collision resolution against the directory listing
`existing`.  Note the non-collision branch writes `file_name` as-is; the
defaulted `.md` extension is only used for counter names. -/
def resolveFileName (existing : List String) (file_name : String) (overwrite : Bool) : String :=
  if file_name ∉ existing ∨ overwrite = true then file_name
  else
    counterName (baseOf file_name) (extOf file_name)
      (findNum existing (baseOf file_name) (extOf file_name) 1 (existing.length + 1))

example : resolveFileName ["README.md"] "README.md" false = "README (1).md" := by decide
example : resolveFileName ["README.md"] "README.md" true = "README.md" := by decide
example : resolveFileName ["README.md", "README (1).md"] "README.md" false
    = "README (2).md" := by decide
example : resolveFileName [] "README" false = "README" := by decide
example : resolveFileName ["README"] "README" false = "README (1).md" := by decide

inductive FsOp where
  | pathExists (p : String)
  | listdir (d : String)
  | write (p : String)
deriving DecidableEq, Repr

structure Fs where
  pathExists : String → Bool
  listdir : String → List String
  cwd : String

def backslashChar : Char := Char.ofNat 92

def dquoteChar : Char := Char.ofNat 34

def INVALID_FILE_CHARS : List Char := ['*', '?', dquoteChar, '<', '>', '|']

/-- `USACOProblem.write_problem` (scraper.py lines 207-256), modelled as a
pure function of the filesystem oracle.  Returns the ordered list of
filesystem operations performed and either an error or the path written. -/
def writeProblem (fs : Fs) (save_as : String) (overwrite : Bool) :
    List FsOp × Except ScrapeError String :=
  if save_as.data.any (fun c => c ∈ INVALID_FILE_CHARS) then
    ([], Except.error ScrapeError.invalidFileName)
  else if containsSub ['.'] save_as.data &&
      !endsWithStr save_as ".md" && !endsWithStr save_as ".txt" then
    ([], Except.error ScrapeError.unsupportedFileType)
  else
    let hasSep := save_as.data.contains backslashChar || save_as.data.contains '/'
    let d := String.mk (pyDirname save_as.data)
    if hasSep && !fs.pathExists d then
      ([FsOp.pathExists d], Except.error ScrapeError.directoryNotFound)
    else
      let ops0 := if hasSep then [FsOp.pathExists d] else []
      let df : String × String :=
        if fs.pathExists d then (d, String.mk (pyBasename save_as.data))
        else
          (if endsWithStr fs.cwd "src"
           then String.mk (fs.cwd.data.take (fs.cwd.data.length - 4))
           else fs.cwd,
           save_as)
      let existing := fs.listdir df.1
      let resolved := resolveFileName existing df.2 overwrite
      let path := pyJoinPath df.1 resolved
      (ops0 ++ [FsOp.pathExists d, FsOp.listdir df.1, FsOp.write path], Except.ok path)

example :
    writeProblem ⟨fun _ => false, fun _ => ["README.md"], "/w"⟩ "README.md" false =
      ([FsOp.pathExists "", FsOp.listdir "/w", FsOp.write "/w/README (1).md"],
       Except.ok "/w/README (1).md") := rfl

example :
    writeProblem ⟨fun _ => false, fun _ => [], "/w"⟩ "na?me" false =
      ([], Except.error ScrapeError.invalidFileName) := rfl

/-! ## Claim theorems -/

/-- **C1.** The abbreviated-title derivation is a deterministic pure function
of `contest_title` and `problem_title`: year is token index 1 of
`contest_title` split on whitespace, `problem_number` is token index 1 of
`problem_title` with everything from the first `.` onward stripped,
`problem_name` joins `problem_title`'s tokens from index 2 on with
underscores, and the result is `"P<number>_<year>-<name>"`; in particular
`"USACO 2023 December Contest, Bronze"` / `"Problem 2. Hoofball"` yields
`"P2_2023-Hoofball"`. -/
theorem abbreviated_title_spec :
    formatAbreviatedTitle "USACO 2023 December Contest, Bronze" "Problem 2. Hoofball" =
      some "P2_2023-Hoofball" ∧
    ∀ (ct pt : String) (year numTok : List Char),
      (splitOnChar ' ' ct.data).get? 1 = some year →
      (splitOnChar ' ' pt.data).get? 1 = some numTok →
      formatAbreviatedTitle ct pt =
        some (String.mk
          ('P' :: (splitOnChar '.' numTok).headD [] ++
           '_' :: year ++
           '-' :: pyJoin ['_'] ((splitOnChar ' ' pt.data).drop 2))) := by
  refine ⟨by decide, ?_⟩
  intro ct pt year numTok h1 h2
  unfold formatAbreviatedTitle
  rw [h1, h2]

theorem abbreviated_title_spec_witness :
    formatAbreviatedTitle "USACO 2019 December Contest, Gold" "Problem 1. Milk Pumping" =
      some (String.mk
        ('P' :: (splitOnChar '.' "1.".data).headD [] ++
         '_' :: "2019".data ++
         '-' :: pyJoin ['_'] ((splitOnChar ' ' "Problem 1. Milk Pumping".data).drop 2))) :=
  abbreviated_title_spec.2 "USACO 2019 December Contest, Gold" "Problem 1. Milk Pumping"
    "2019".data "1.".data (by decide) (by decide)

/-- **C5.** `is_valid_url url = true` iff `url` starts with the base origin
and contains the problem-page marker; it is `false` on the empty string, a
wrong-origin URL and a URL missing the marker; and an invalid URL makes
`__init__` fail with `InvalidUrl` before any network call (the fetched-URL
list is empty, for every fetch oracle). -/
theorem is_valid_url_spec :
    (∀ url : String, is_valid_url url = true ↔
      (USACO_BASE_URL.data.isPrefixOf url.data = true ∧
       containsSub PROBLEM_SUBWEBSITE.data url.data = true)) ∧
    is_valid_url "" = false ∧
    is_valid_url "https://example.org/index.php?page=viewproblem2" = false ∧
    is_valid_url "https://usaco.org/index.php?page=viewcontest" = false ∧
    ∀ (url : String), is_valid_url url = false →
      ∀ fetch, initProblem url fetch = ([], Except.error ScrapeError.invalidUrl) := by
  refine ⟨?_, by decide, by decide, by decide, ?_⟩
  · intro url
    simp only [is_valid_url, Bool.and_eq_true, Bool.not_eq_true']
    constructor
    · rintro ⟨⟨_, h2⟩, h3⟩; exact ⟨h2, h3⟩
    · rintro ⟨h2, h3⟩
      refine ⟨⟨?_, h2⟩, h3⟩
      cases hd : url.data with
      | nil => rw [hd] at h2; exact absurd h2 (by decide)
      | cons c cs => rfl
  · intro url h fetch
    unfold initProblem
    rw [h]
    rfl

theorem is_valid_url_spec_witness :
    initProblem "https://usaco.org/contests" (fun _ => Except.error ScrapeError.malformedPage) =
      ([], Except.error ScrapeError.invalidUrl) :=
  is_valid_url_spec.2.2.2.2 "https://usaco.org/contests" (by decide) _

/-- **C6.** On connection-level failure the fetcher makes at most 3 GET
attempts with sleeps of 0, 1, 2 time-units after the respective failures,
fails with `ConnectionFailure` exactly when all 3 attempts fail, and stops
immediately on a successful attempt. -/
theorem fetch_retry_spec :
    ∀ {α : Type} (net : Nat → Option α),
      (net 0 = none → net 1 = none → net 2 = none →
        fetchProblemPage net = (3, [0, 1, 2], Except.error ScrapeError.connectionFailure)) ∧
      (∀ r, net 0 = some r → fetchProblemPage net = (1, [], Except.ok r)) ∧
      (∀ r, net 0 = none → net 1 = some r → fetchProblemPage net = (2, [0], Except.ok r)) ∧
      (∀ r, net 0 = none → net 1 = none → net 2 = some r →
        fetchProblemPage net = (3, [0, 1], Except.ok r)) := by
  intro α net
  refine ⟨?_, ?_, ?_, ?_⟩
  · intro h0 h1 h2
    simp [fetchProblemPage, fetchRemaining, h0, h1, h2]
  · intro r h0
    simp [fetchProblemPage, fetchRemaining, h0]
  · intro r h0 h1
    simp [fetchProblemPage, fetchRemaining, h0, h1]
  · intro r h0 h1 h2
    simp [fetchProblemPage, fetchRemaining, h0, h1, h2]

theorem fetch_retry_spec_witness :
    fetchProblemPage (fun _ => (none : Option Nat)) =
      (3, [0, 1, 2], Except.error ScrapeError.connectionFailure) :=
  (fetch_retry_spec (fun _ => (none : Option Nat))).1 rfl rfl rfl

/-- **C9.** A save path containing a reserved character (`* ? " < > |`) is
rejected with `InvalidFileName` before any filesystem access: for every
filesystem oracle the operation log is empty and the result is the error,
so no file or directory state is read or modified. -/
theorem write_reject_invalid_name :
    ∀ (fs : Fs) (save_as : String) (ow : Bool),
      save_as.data.any (fun c => c ∈ INVALID_FILE_CHARS) = true →
      writeProblem fs save_as ow = ([], Except.error ScrapeError.invalidFileName) := by
  intro fs s ow h
  unfold writeProblem
  rw [if_pos h]

theorem write_reject_invalid_name_witness :
    writeProblem ⟨fun _ => true, fun _ => ["README.md"], "/w"⟩ "RE<AD|ME?.md" false =
      ([], Except.error ScrapeError.invalidFileName) :=
  write_reject_invalid_name ⟨fun _ => true, fun _ => ["README.md"], "/w"⟩
    "RE<AD|ME?.md" false (by decide)

/-! ### Helper lemmas for the sample-formatting claim -/

theorem mk_data (s : String) : String.mk s.data = s := by
  cases s
  rfl

theorem zip_eq_zip_take_min {α β : Type} :
    ∀ (a : List α) (b : List β),
      a.zip b = (a.take (min a.length b.length)).zip (b.take (min a.length b.length)) := by
  intro a
  induction a with
  | nil => intro b; simp
  | cons x xs ih =>
    intro b
    cases b with
    | nil => simp
    | cons y ys =>
      simp only [List.zip_cons_cons, List.length_cons]
      have hm : min (xs.length + 1) (ys.length + 1) = min xs.length ys.length + 1 := by
        omega
      rw [hm]
      simp only [List.take_succ_cons, List.zip_cons_cons]
      exact congrArg (fun t => (x, y) :: t) (ih ys)

theorem replAux_no_occ (target repl : List Char) :
    ∀ (fuel : Nat) (s : List Char),
      containsSub target s = false → replAux target repl fuel s = s := by
  intro fuel
  induction fuel with
  | zero => intro s _; rfl
  | succ n ih =>
    intro s h
    cases s with
    | nil => rfl
    | cons c cs =>
      unfold containsSub at h
      rw [Bool.or_eq_false_iff] at h
      unfold replAux
      rw [if_neg (by simp [h.1])]
      exact congrArg (fun t => c :: t) (ih cs h.2)

/-- Python `str.replace` is the identity when the target does not occur. -/
theorem strReplace_no_occ (s target repl : String)
    (h : containsSub target.data s.data = false) :
    strReplace s target repl = s := by
  unfold strReplace listReplace
  by_cases he : target.data.isEmpty
  · rw [if_pos he, mk_data]
  · rw [if_neg he, replAux_no_occ target.data repl.data s.data.length s.data h, mk_data]

/-- **C3.** Sample inputs and outputs are paired strictly by position,
stopping at the shorter sequence; each pair's literal
`"**SAMPLE INPUT:**\n\n<input>"` occurrence is replaced by the same label
followed by the input in a `txt` fence (likewise for outputs), with the
label text preserved exactly; and a pair whose literal target does not
occur leaves the text unchanged without any error. -/
theorem sample_pairing_spec :
    (∀ (ins outs : List String) (text : String),
       formatSamples ins outs text =
         formatSamples (ins.take (min ins.length outs.length))
           (outs.take (min ins.length outs.length)) text) ∧
    formatSamples ["1 2 3"] ["6"]
        "pre\n\n**SAMPLE INPUT:**\n\n1 2 3\n\n**SAMPLE OUTPUT:**\n\n6\n\npost" =
      "pre\n\n**SAMPLE INPUT:**\n\n```txt\n1 2 3\n```\n\n**SAMPLE OUTPUT:**\n\n```txt\n6\n```\n\npost" ∧
    (∀ (i o text : String),
       containsSub (sampleInputTarget i).data text.data = false →
       containsSub (sampleOutputTarget o).data text.data = false →
       formatSamples [i] [o] text = text) := by
  refine ⟨?_, by decide, ?_⟩
  · intro ins outs text
    unfold formatSamples
    rw [← zip_eq_zip_take_min]
  · intro i o text h1 h2
    show formatSamplePair text (i, o) = text
    unfold formatSamplePair
    rw [strReplace_no_occ text _ _ h1, strReplace_no_occ text _ _ h2]

theorem sample_pairing_spec_witness :
    formatSamples ["1 2"] ["3"] "no samples here" = "no samples here" :=
  sample_pairing_spec.2.2 "1 2" "3" "no samples here" (by decide) (by decide)

/-- **C4.** Extraction's failure policy: a page with fewer than two
headings, or without the navigation button, fails with `MalformedPage`;
whereas a page missing only the problem-statement container does not
fail — the statement is the literal `"Problem text not found."` and no
formatting pass is applied to it. -/
theorem parse_failure_policy :
    ∀ (url : String) (p : Page),
      (p.h2s.length < 2 → parseProblemData url p = Except.error ScrapeError.malformedPage) ∧
      (p.buttonOnclick = none →
        parseProblemData url p = Except.error ScrapeError.malformedPage) ∧
      (p.problemTextDiv = none →
        formatProblemStatement p.problemTextDiv = "Problem text not found." ∧
        ∀ (onclick : String) (path : List Char) (ct pt : String) (rest : List String)
          (ab : String),
          p.buttonOnclick = some onclick →
          (splitOnChar quoteChar onclick.data).get? 1 = some path →
          p.h2s = ct :: pt :: rest →
          formatAbreviatedTitle ct pt = some ab →
          parseProblemData url p =
            Except.ok
              ⟨url, USACO_BASE_URL ++ String.mk path, ct, pt,
               String.mk ((splitOnChar ' ' ct.data).getLastD []), ab,
               formatProblem ct (USACO_BASE_URL ++ String.mk path) pt url
                 "Problem text not found."⟩) := by
  intro url p
  refine ⟨?_, ?_, ?_⟩
  · intro hlen
    have h1 : p.h2s.get? 1 = none := by
      rw [List.get?_eq_none]
      omega
    unfold parseProblemData
    cases hb : p.buttonOnclick with
    | none => rfl
    | some onclick =>
      dsimp only
      cases hq : (splitOnChar quoteChar onclick.data).get? 1 with
      | none => rfl
      | some path =>
        dsimp only
        rw [h1]
        cases p.h2s.get? 0 <;> rfl
  · intro hb
    unfold parseProblemData
    rw [hb]
  · intro hd
    refine ⟨by rw [hd]; rfl, ?_⟩
    intro onclick path ct pt rest ab hb hq hh hab
    unfold parseProblemData
    rw [hb]
    dsimp only
    rw [hq]
    dsimp only
    rw [hh]
    simp only [List.get?]
    rw [hab]
    dsimp only
    rw [hd]
    rfl

/-! ### Helper lemmas for collision resolution

Injectivity of the decimal rendering (via a digit-evaluation round-trip)
gives that the candidate names `"base (1)ext", "base (2)ext", …` are
pairwise distinct, so by pigeonhole the `while` loop in `write_problem`
finds an unused name after at most `existing.length + 1` tests. -/

def charVal (c : Char) : Nat := c.toNat - 48

def valDigits (l : List Char) : Nat :=
  l.foldl (fun a c => 10 * a + charVal c) 0

theorem charVal_digitChar (d : Nat) (h : d < 10) : charVal (digitChar d) = d := by
  interval_cases d <;> rfl

theorem valDigits_append_digit (l : List Char) (c : Char) :
    valDigits (l ++ [c]) = 10 * valDigits l + charVal c := by
  unfold valDigits
  rw [List.foldl_append]
  rfl

theorem valDigits_natReprAux : ∀ (fuel n : Nat), n < fuel →
    valDigits (natReprAux fuel n) = n := by
  intro fuel
  induction fuel with
  | zero => intro n h; omega
  | succ f ih =>
    intro n h
    unfold natReprAux
    by_cases h10 : n < 10
    · rw [if_pos h10]
      show 10 * 0 + charVal (digitChar n) = n
      rw [charVal_digitChar n h10]
      omega
    · rw [if_neg h10]
      rw [valDigits_append_digit]
      have hdiv : n / 10 < f := by
        have : n / 10 < n := Nat.div_lt_self (by omega) (by omega)
        omega
      rw [ih (n / 10) hdiv, charVal_digitChar (n % 10) (Nat.mod_lt n (by omega))]
      omega

theorem natRepr_inj (a b : Nat) (h : natRepr a = natRepr b) : a = b := by
  have hd : natReprAux (a + 1) a = natReprAux (b + 1) b := congrArg String.data h
  have ha := valDigits_natReprAux (a + 1) a (by omega)
  have hb := valDigits_natReprAux (b + 1) b (by omega)
  rw [← ha, ← hb, hd]

theorem counterName_inj (base ext : String) (a b : Nat)
    (h : counterName base ext a = counterName base ext b) : a = b := by
  have hd := congrArg String.data h
  simp only [counterName, String.data_append, List.append_assoc] at hd
  have h1 := List.append_cancel_left hd
  have h2 := List.append_cancel_left h1
  have h3 := List.append_cancel_right h2
  exact natRepr_inj a b (by
    apply congrArg String.mk at h3
    rwa [mk_data, mk_data] at h3)

theorem exists_unused_counterName (existing : List String) (base ext : String) :
    ∃ k, k < existing.length + 1 ∧ counterName base ext (1 + k) ∉ existing := by
  by_contra hc
  push_neg at hc
  set cand : List String :=
    (List.range (existing.length + 1)).map (fun k => counterName base ext (1 + k)) with hcand
  have hnodup : cand.Nodup := by
    refine List.Nodup.map ?_ (List.nodup_range (existing.length + 1))
    intro x y hxy
    have := counterName_inj base ext (1 + x) (1 + y) hxy
    omega
  have hsub : cand.toFinset ⊆ existing.toFinset := by
    intro x hx
    rw [List.mem_toFinset] at hx ⊢
    rw [hcand, List.mem_map] at hx
    obtain ⟨k, hk, hx⟩ := hx
    rw [List.mem_range] at hk
    exact hx ▸ hc k hk
  have hcard : cand.toFinset.card ≤ existing.toFinset.card := Finset.card_le_card hsub
  rw [List.toFinset_card_of_nodup hnodup] at hcard
  have h1 : cand.length = existing.length + 1 := by
    rw [hcand, List.length_map, List.length_range]
  have h2 := List.toFinset_card_le existing
  omega

theorem findNum_spec (existing : List String) (base ext : String) :
    ∀ (fuel start : Nat),
      (∃ k, k < fuel ∧ counterName base ext (start + k) ∉ existing) →
      counterName base ext (findNum existing base ext start fuel) ∉ existing ∧
      start ≤ findNum existing base ext start fuel ∧
      ∀ m, start ≤ m → m < findNum existing base ext start fuel →
        counterName base ext m ∈ existing := by
  intro fuel
  induction fuel with
  | zero =>
    intro start h
    obtain ⟨k, hk, _⟩ := h
    omega
  | succ f ih =>
    intro start h
    unfold findNum
    by_cases hmem : counterName base ext start ∈ existing
    · rw [if_pos hmem]
      obtain ⟨k, hk, hout⟩ := h
      have hk0 : k ≠ 0 := by
        intro h0
        rw [h0, Nat.add_zero] at hout
        exact hout hmem
      have hex : ∃ j, j < f ∧ counterName base ext (start + 1 + j) ∉ existing := by
        refine ⟨k - 1, by omega, ?_⟩
        have : start + 1 + (k - 1) = start + k := by omega
        rwa [this]
      obtain ⟨h1, h2, h3⟩ := ih (start + 1) hex
      refine ⟨h1, by omega, ?_⟩
      intro m hm1 hm2
      rcases Nat.eq_or_lt_of_le hm1 with heq | hlt
      · rwa [← heq]
      · exact h3 m (by omega) hm2
    · rw [if_neg hmem]
      exact ⟨hmem, Nat.le_refl start, fun m hm1 hm2 => absurd (by omega : start < start) (by omega)⟩

/-- Collision-branch characterisation of `resolveFileName`: the result is
the least-numbered unused counter name, numbered from 1. -/
theorem resolveFileName_collision (existing : List String) (name : String)
    (hmem : name ∈ existing) :
    ∃ n, 1 ≤ n ∧
      resolveFileName existing name false =
        counterName (baseOf name) (extOf name) n ∧
      counterName (baseOf name) (extOf name) n ∉ existing ∧
      ∀ m, 1 ≤ m → m < n → counterName (baseOf name) (extOf name) m ∈ existing := by
  unfold resolveFileName
  rw [if_neg (by simp [hmem])]
  refine ⟨findNum existing (baseOf name) (extOf name) 1 (existing.length + 1), ?_, rfl, ?_, ?_⟩
  all_goals
    have hspec := findNum_spec existing (baseOf name) (extOf name) (existing.length + 1) 1
      (exists_unused_counterName existing (baseOf name) (extOf name))
  · exact hspec.2.1
  · exact hspec.1
  · exact hspec.2.2

theorem isPrefixOf_self_append : ∀ (x y : List Char), x.isPrefixOf (x ++ y) = true := by
  intro x y
  induction x with
  | nil => simp [List.isPrefixOf]
  | cons c cs ih => simp [List.isPrefixOf, ih]

theorem isSuffixOf_append_self (l t : List Char) : t.isSuffixOf (l ++ t) = true := by
  simp only [List.isSuffixOf, List.reverse_append]
  exact isPrefixOf_self_append t.reverse l.reverse

/-- **C7.** At save time the destination directory's listing decides the
name: with `overwrite` or no exact-name collision the requested name is
used as-is; on a collision a parenthesised counter (starting from 1, the
least unused) is inserted before the extension.  In particular, with
`"README.md"` present: `overwrite=false` yields `"README (1).md"` and
`overwrite=true` keeps `"README.md"`. -/
theorem collision_resolution_spec :
    (∀ (existing : List String) (name : String) (ow : Bool),
       (ow = true ∨ name ∉ existing) → resolveFileName existing name ow = name) ∧
    (∀ (existing : List String) (name : String), name ∈ existing →
       ∃ n, 1 ≤ n ∧
         resolveFileName existing name false =
           counterName (baseOf name) (extOf name) n ∧
         counterName (baseOf name) (extOf name) n ∉ existing ∧
         ∀ m, 1 ≤ m → m < n →
           counterName (baseOf name) (extOf name) m ∈ existing) ∧
    resolveFileName ["README.md"] "README.md" false = "README (1).md" ∧
    resolveFileName ["README.md"] "README.md" true = "README.md" := by
  refine ⟨?_, ?_, by decide, by decide⟩
  · intro existing name ow h
    unfold resolveFileName
    rw [if_pos (by tauto)]
  · intro existing name hmem
    exact resolveFileName_collision existing name hmem

theorem collision_resolution_spec_witness :
    resolveFileName ["README.md"] "NOTES.md" false = "NOTES.md" :=
  collision_resolution_spec.1 ["README.md"] "NOTES.md" false (Or.inr (by decide))

/-- **C8 (amended).** For a requested file name with no extension, the
`.md` default applies only in the counter-appending collision branch: on a
collision (name present, `overwrite=false`) the written name ends in
`".md"`, but in the no-collision branch the file is written under the
exact extensionless name with no `.md` appended. -/
theorem extension_default_amended :
    ∀ (existing : List String) (name : String) (ow : Bool),
      (pySplitext name.data).2 = [] →
      ((ow = true ∨ name ∉ existing) → resolveFileName existing name ow = name) ∧
      (ow = false → name ∈ existing →
        endsWithStr (resolveFileName existing name ow) ".md" = true) := by
  intro existing name ow hext
  constructor
  · intro h
    unfold resolveFileName
    rw [if_pos (by tauto)]
  · intro how hmem
    subst how
    obtain ⟨n, _, heq, _, _⟩ := resolveFileName_collision existing name hmem
    rw [heq]
    have hmd : extOf name = ".md" := by
      unfold extOf
      rw [hext]
      rfl
    unfold endsWithStr counterName
    rw [hmd]
    rw [String.data_append]
    exact isSuffixOf_append_self _ _

/-- **C8 counterexample.** Saving `"README"` (no extension) into an empty
directory writes the path `"/w/README"`, which does not end in `".md"`:
the claim fails in the no-collision case. -/
theorem extension_default_counterexample :
    writeProblem ⟨fun _ => false, fun _ => [], "/w"⟩ "README" false =
      ([FsOp.pathExists "", FsOp.listdir "/w", FsOp.write "/w/README"],
       Except.ok "/w/README") ∧
    endsWithStr "/w/README" ".md" = false :=
  ⟨rfl, by decide⟩

theorem extension_default_amended_witness :
    endsWithStr (resolveFileName ["README"] "README" false) ".md" = true :=
  (extension_default_amended ["README"] "README" false (by decide)).2 rfl (by decide)

/-! ### Helper lemmas for the cleanup pass (`_clean_markdown_text`)

The line-level development below establishes: lines produced by
`pySplitlines` contain no boundary characters; `cleanLines` output lines
are fixed points of `fixLine`, contain no two consecutive blank lines, and
form a sublist of the `fixLine`-mapped input; joining with `"\n"` and
re-splitting returns the same lines except that a single trailing empty
line is dropped.  Together these give the (amended) idempotence behaviour
of the cleanup pass. -/

theorem pyRstrip_idem (l : List Char) : pyRstrip (pyRstrip l) = pyRstrip l := by
  unfold pyRstrip
  rw [List.reverse_reverse, List.dropWhile_idempotent]

theorem rstrip_decomp (l : List Char) :
    pyRstrip l ++ (l.reverse.takeWhile isPySpace).reverse = l := by
  unfold pyRstrip
  rw [← List.reverse_append, List.takeWhile_append_dropWhile, List.reverse_reverse]

theorem all_takeWhile (p : Char → Bool) (l : List Char) :
    (l.takeWhile p).all p = true := by
  rw [List.all_eq_true]
  intro x hx
  exact List.mem_takeWhile_imp hx

theorem isBlankL_rstrip (l : List Char) : isBlankL (pyRstrip l) = isBlankL l := by
  conv_rhs => rw [← rstrip_decomp l]
  unfold isBlankL
  rw [List.all_append, List.all_reverse, all_takeWhile, Bool.and_true]

theorem fixLine_cases (l : List Char) : fixLine l = l ∨ fixLine l = pyRstrip l := by
  unfold fixLine
  by_cases h1 : pyRstrip l ≠ l
  · rw [if_pos h1]
    by_cases h2 : l.length - (pyRstrip l).length = 1
    · rw [if_pos h2]; exact Or.inr rfl
    · rw [if_neg h2]; exact Or.inl rfl
  · rw [if_neg h1]; exact Or.inl rfl

theorem fixLine_idem (l : List Char) : fixLine (fixLine l) = fixLine l := by
  rcases fixLine_cases l with h | h
  · rw [h, h]
  · rw [h]
    unfold fixLine
    rw [if_neg (by rw [pyRstrip_idem]; exact fun hne => hne rfl)]

theorem isBlankL_fixLine (l : List Char) : isBlankL (fixLine l) = isBlankL l := by
  rcases fixLine_cases l with h | h
  · rw [h]
  · rw [h, isBlankL_rstrip]

theorem mem_pyRstrip (l : List Char) (c : Char) (h : c ∈ pyRstrip l) : c ∈ l := by
  unfold pyRstrip at h
  rw [List.mem_reverse] at h
  have := (List.dropWhile_sublist isPySpace).subset h
  rwa [List.mem_reverse] at this

theorem mem_fixLine (l : List Char) (c : Char) (h : c ∈ fixLine l) : c ∈ l := by
  rcases fixLine_cases l with he | he
  · rwa [he] at h
  · rw [he] at h
    exact mem_pyRstrip l c h

/-- A single trailing whitespace character: when `fixLine` changes the
line, the original is the fixed line plus one whitespace character. -/
theorem fixLine_drop_one (l : List Char) (h : fixLine l ≠ l) :
    ∃ c, isPySpace c = true ∧ l = fixLine l ++ [c] := by
  have hfix : fixLine l = pyRstrip l := by
    rcases fixLine_cases l with he | he
    · exact absurd he h
    · exact he
  have hlen : l.length - (pyRstrip l).length = 1 := by
    by_contra hne
    apply h
    unfold fixLine
    by_cases h1 : pyRstrip l ≠ l
    · rw [if_pos h1, if_neg hne]
    · rw [if_neg h1]
  have hdec := rstrip_decomp l
  have hsum :
      (pyRstrip l).length + ((l.reverse.takeWhile isPySpace).reverse).length = l.length := by
    rw [← List.length_append, hdec]
  have htlen : ((l.reverse.takeWhile isPySpace).reverse).length = 1 := by omega
  obtain ⟨c, hc⟩ := List.length_eq_one.mp htlen
  refine ⟨c, ?_, ?_⟩
  · have hcmem : c ∈ l.reverse.takeWhile isPySpace := by
      have hct : c ∈ (l.reverse.takeWhile isPySpace).reverse := by
        rw [hc]
        exact List.mem_singleton.mpr rfl
      rwa [List.mem_reverse] at hct
    exact List.mem_takeWhile_imp hcmem
  · rw [hfix, ← hc, hdec]

/-! Step equations for `pySplitlines`, mirroring its three clauses. -/

theorem pySplitlines_crlf (rest : List Char) :
    pySplitlines ('\r' :: '\n' :: rest) = [] :: pySplitlines rest := rfl

set_option maxHeartbeats 1600000 in
theorem pySplitlines_cons_boundary (c : Char) (cs : List Char)
    (hb : isLineBoundary c = true) (hcr : c = '\r' → cs.head? ≠ some '\n') :
    pySplitlines (c :: cs) = [] :: pySplitlines cs := by
  rw [pySplitlines.eq_def]
  split
  · rename_i h2
    exact absurd h2 (List.cons_ne_nil c cs)
  · rename_i rest heq2
    injection heq2 with h1 h2
    subst h1
    subst h2
    exact absurd rfl (hcr rfl)
  · rename_i x cc csc hno heq
    injection heq with h1 h2
    subst h1
    subst h2
    rw [if_pos hb]

theorem pySplitlines_cons_nonb_nil (c : Char) (cs : List Char)
    (hb : isLineBoundary c = false) (h : pySplitlines cs = []) :
    pySplitlines (c :: cs) = [[c]] := by
  rw [pySplitlines.eq_def]
  split
  · rename_i h2
    exact absurd h2 (List.cons_ne_nil c cs)
  · rename_i rest heq2
    injection heq2 with h1 h2
    subst h1
    exact absurd hb (by decide)
  · rename_i x cc csc hno heq
    injection heq with h1 h2
    subst h1
    subst h2
    rw [if_neg (by simp [hb]), h]

theorem pySplitlines_cons_nonb_cons (c : Char) (cs t : List Char) (ts : List (List Char))
    (hb : isLineBoundary c = false) (h : pySplitlines cs = t :: ts) :
    pySplitlines (c :: cs) = (c :: t) :: ts := by
  rw [pySplitlines.eq_def]
  split
  · rename_i h2
    exact absurd h2 (List.cons_ne_nil c cs)
  · rename_i rest heq2
    injection heq2 with h1 h2
    subst h1
    exact absurd hb (by decide)
  · rename_i x cc csc hno heq
    injection heq with h1 h2
    subst h1
    subst h2
    rw [if_neg (by simp [hb]), h]

theorem pySplitlines_no_boundary_aux :
    ∀ (n : Nat) (cs : List Char), cs.length ≤ n →
      ∀ l ∈ pySplitlines cs, ∀ c ∈ l, isLineBoundary c = false := by
  intro n
  induction n with
  | zero =>
    intro cs hlen l hl
    have hnil : cs = [] := by
      cases cs with
      | nil => rfl
      | cons a as => simp at hlen
    rw [hnil] at hl
    exact absurd hl (List.not_mem_nil l)
  | succ m ih =>
    intro cs hlen l hl
    cases cs with
    | nil => exact absurd hl (List.not_mem_nil l)
    | cons c cs' =>
      by_cases hcr : c = '\r' ∧ cs'.head? = some '\n'
      · obtain ⟨rfl, hh⟩ := hcr
        obtain ⟨rest, rfl⟩ : ∃ rest, cs' = '\n' :: rest := by
          cases cs' with
          | nil => simp at hh
          | cons d r =>
            rw [List.head?_cons, Option.some.injEq] at hh
            exact ⟨r, by rw [hh]⟩
        rw [pySplitlines_crlf] at hl
        rcases List.mem_cons.mp hl with rfl | hm
        · intro x hx
          exact absurd hx (List.not_mem_nil x)
        · exact ih rest (by simp at hlen; omega) l hm
      · rw [not_and_or] at hcr
        by_cases hb : isLineBoundary c
        · have hcr2 : c = '\r' → cs'.head? ≠ some '\n' := by
            intro h1 h2
            rcases hcr with h | h
            · exact h h1
            · exact h h2
          rw [pySplitlines_cons_boundary c cs' hb hcr2] at hl
          rcases List.mem_cons.mp hl with rfl | hm
          · intro x hx
            exact absurd hx (List.not_mem_nil x)
          · exact ih cs' (by simp at hlen; omega) l hm
        · rw [Bool.not_eq_true] at hb
          cases hsp : pySplitlines cs' with
          | nil =>
            rw [pySplitlines_cons_nonb_nil c cs' hb hsp] at hl
            rcases List.mem_cons.mp hl with rfl | hm
            · intro x hx
              rcases List.mem_singleton.mp hx with rfl
              exact hb
            · exact absurd hm (List.not_mem_nil l)
          | cons t ts =>
            rw [pySplitlines_cons_nonb_cons c cs' t ts hb hsp] at hl
            rcases List.mem_cons.mp hl with rfl | hm
            · intro x hx
              rcases List.mem_cons.mp hx with rfl | hxm
              · exact hb
              · exact ih cs' (by simp at hlen; omega) t
                  (hsp ▸ List.mem_cons_self t ts) x hxm
            · exact ih cs' (by simp at hlen; omega) l
                (hsp ▸ List.mem_cons_of_mem t hm)

/-- Lines produced by `pySplitlines` contain no line-boundary characters. -/
theorem pySplitlines_no_boundary (cs : List Char) (l : List Char)
    (hl : l ∈ pySplitlines cs) : ∀ c ∈ l, isLineBoundary c = false :=
  pySplitlines_no_boundary_aux cs.length cs (Nat.le_refl _) l hl

/-- No two consecutive blank lines. -/
def nonConsecBlank (a b : List Char) : Prop :=
  ¬(isBlankL a = true ∧ isBlankL b = true)

theorem cleanLines_cons (l : List Char) (ls : List (List Char)) (b : Bool) :
    cleanLines (l :: ls) b =
      if isBlankL l && b then cleanLines ls true
      else fixLine l :: cleanLines ls (isBlankL l) := rfl

/-- With `prev_empty = true` the first kept line is never blank. -/
theorem cleanLines_head_not_blank :
    ∀ (ls : List (List Char)) (h : List Char),
      (cleanLines ls true).head? = some h → isBlankL h = false := by
  intro ls
  induction ls with
  | nil =>
    intro h hh
    exact absurd hh (by simp [cleanLines])
  | cons l ls ih =>
    intro h hh
    rw [cleanLines_cons] at hh
    cases hb : isBlankL l with
    | true =>
      rw [hb, Bool.true_and, if_pos rfl] at hh
      exact ih h hh
    | false =>
      rw [hb, Bool.false_and, if_neg Bool.false_ne_true, List.head?_cons,
        Option.some.injEq] at hh
      rw [← hh, isBlankL_fixLine]
      exact hb

/-- The cleaned lines never contain two consecutive blank lines. -/
theorem cleanLines_chain :
    ∀ (ls : List (List Char)) (b : Bool),
      List.Chain' nonConsecBlank (cleanLines ls b) := by
  intro ls
  induction ls with
  | nil => intro b; exact List.chain'_nil
  | cons l ls ih =>
    intro b
    rw [cleanLines_cons]
    by_cases hc : (isBlankL l && b) = true
    · rw [if_pos hc]
      exact ih true
    · rw [if_neg hc, List.chain'_cons']
      refine ⟨?_, ih (isBlankL l)⟩
      intro h hh
      rintro ⟨hbl, hbh⟩
      rw [isBlankL_fixLine] at hbl
      rw [Option.mem_def] at hh
      rw [hbl] at hh
      have hnb := cleanLines_head_not_blank ls h hh
      rw [hnb] at hbh
      exact Bool.false_ne_true hbh

/-- Every cleaned line is a fixed point of the trailing-space fix. -/
theorem cleanLines_fixed :
    ∀ (ls : List (List Char)) (b : Bool) (l : List Char),
      l ∈ cleanLines ls b → fixLine l = l := by
  intro ls
  induction ls with
  | nil =>
    intro b l hl
    exact absurd hl (List.not_mem_nil l)
  | cons x ls ih =>
    intro b l hl
    rw [cleanLines_cons] at hl
    by_cases hc : (isBlankL x && b) = true
    · rw [if_pos hc] at hl
      exact ih true l hl
    · rw [if_neg hc] at hl
      rcases List.mem_cons.mp hl with rfl | hm
      · exact fixLine_idem x
      · exact ih (isBlankL x) l hm

/-- Cleaned lines contain no boundary characters when the input lines do not. -/
theorem cleanLines_no_boundary :
    ∀ (ls : List (List Char)) (b : Bool),
      (∀ l ∈ ls, ∀ c ∈ l, isLineBoundary c = false) →
      ∀ l ∈ cleanLines ls b, ∀ c ∈ l, isLineBoundary c = false := by
  intro ls
  induction ls with
  | nil =>
    intro b _ l hl
    exact absurd hl (List.not_mem_nil l)
  | cons x ls ih =>
    intro b hnb l hl
    rw [cleanLines_cons] at hl
    by_cases hc : (isBlankL x && b) = true
    · rw [if_pos hc] at hl
      exact ih true (fun y hy => hnb y (List.mem_cons_of_mem x hy)) l hl
    · rw [if_neg hc] at hl
      rcases List.mem_cons.mp hl with rfl | hm
      · intro c hcm
        exact hnb x (List.mem_cons_self x ls) c (mem_fixLine x c hcm)
      · exact ih (isBlankL x) (fun y hy => hnb y (List.mem_cons_of_mem x hy)) l hm

/-- `cleanLines` is the identity on line lists that are already clean:
all lines fixed under `fixLine`, no two consecutive blanks, and (when the
incoming `prev_empty` flag is set) a non-blank first line. -/
theorem cleanLines_id :
    ∀ (ls : List (List Char)) (b : Bool),
      (∀ l ∈ ls, fixLine l = l) →
      List.Chain' nonConsecBlank ls →
      (b = true → ∀ h, ls.head? = some h → isBlankL h = false) →
      cleanLines ls b = ls := by
  intro ls
  induction ls with
  | nil => intro b _ _ _; rfl
  | cons l ls ih =>
    intro b hfix hchain hhead
    have hcond : (isBlankL l && b) = false := by
      cases hb2 : b with
      | false => rw [Bool.and_false]
      | true =>
        cases hb3 : isBlankL l with
        | false => rw [Bool.false_and]
        | true =>
          have := hhead hb2 l List.head?_cons
          rw [hb3] at this
          exact absurd this (by decide)
    rw [cleanLines_cons, if_neg (by rw [hcond]; exact Bool.false_ne_true),
      hfix l (List.mem_cons_self l ls)]
    congr 1
    apply ih (isBlankL l)
    · intro x hx
      exact hfix x (List.mem_cons_of_mem l hx)
    · exact (List.chain'_cons'.mp hchain).2
    · intro hbl h hh
      have hrel := (List.chain'_cons'.mp hchain).1 h (by rw [Option.mem_def]; exact hh)
      cases hbh : isBlankL h with
      | false => rfl
      | true => exact absurd ⟨hbl, hbh⟩ hrel

/-- The cleaned lines are an in-order selection of the fixed input lines. -/
theorem cleanLines_sublist :
    ∀ (ls : List (List Char)) (b : Bool),
      List.Sublist (cleanLines ls b) (ls.map fixLine) := by
  intro ls
  induction ls with
  | nil => intro b; exact List.Sublist.refl []
  | cons l ls ih =>
    intro b
    rw [cleanLines_cons, List.map_cons]
    by_cases hc : (isBlankL l && b) = true
    · rw [if_pos hc]
      exact (ih true).cons (fixLine l)
    · rw [if_neg hc]
      exact (ih (isBlankL l)).cons₂ (fixLine l)

/-- Every cleaned line is the `fixLine` image of some input line. -/
theorem cleanLines_origin :
    ∀ (ls : List (List Char)) (b : Bool) (l2 : List Char),
      l2 ∈ cleanLines ls b → ∃ l ∈ ls, l2 = fixLine l := by
  intro ls
  induction ls with
  | nil =>
    intro b l2 hl
    exact absurd hl (List.not_mem_nil l2)
  | cons x ls ih =>
    intro b l2 hl
    rw [cleanLines_cons] at hl
    by_cases hc : (isBlankL x && b) = true
    · rw [if_pos hc] at hl
      obtain ⟨l, hm, he⟩ := ih true l2 hl
      exact ⟨l, List.mem_cons_of_mem x hm, he⟩
    · rw [if_neg hc] at hl
      rcases List.mem_cons.mp hl with rfl | hm
      · exact ⟨x, List.mem_cons_self x ls, rfl⟩
      · obtain ⟨l, hm2, he⟩ := ih (isBlankL x) l2 hm
        exact ⟨l, List.mem_cons_of_mem x hm2, he⟩

/-! Joining cleaned lines with `"\n"` and re-splitting: the lines come
back except that one trailing empty line is absorbed by the join. -/

/-- Drop a single trailing empty line, the only discrepancy between
`splitlines ∘ join` and the identity. -/
def stripTrailingNil : List (List Char) → List (List Char)
  | [] => []
  | [l] => if l = [] then [] else [l]
  | l :: ls => l :: stripTrailingNil ls

theorem pyJoin_cons_ne (sep l : List Char) (ls : List (List Char)) (h : ls ≠ []) :
    pyJoin sep (l :: ls) = l ++ sep ++ pyJoin sep ls := by
  cases ls with
  | nil => exact absurd rfl h
  | cons l2 ls2 => rfl

theorem stripTrailingNil_cons_ne (l : List Char) (ls : List (List Char)) (h : ls ≠ []) :
    stripTrailingNil (l :: ls) = l :: stripTrailingNil ls := by
  cases ls with
  | nil => exact absurd rfl h
  | cons l2 ls2 => rfl

theorem mem_stripTrailingNil :
    ∀ (ls : List (List Char)) (l : List Char), l ∈ stripTrailingNil ls → l ∈ ls := by
  intro ls
  induction ls with
  | nil =>
    intro l hl
    exact absurd hl (List.not_mem_nil l)
  | cons x ls ih =>
    intro l hl
    cases ls with
    | nil =>
      by_cases hx : x = []
      · rw [show stripTrailingNil [x] = [] from by rw [stripTrailingNil, if_pos hx]] at hl
        exact absurd hl (List.not_mem_nil l)
      · rw [show stripTrailingNil [x] = [x] from by rw [stripTrailingNil, if_neg hx]] at hl
        exact hl
    | cons y ls2 =>
      rw [stripTrailingNil_cons_ne x (y :: ls2) (List.cons_ne_nil y ls2)] at hl
      rcases List.mem_cons.mp hl with rfl | hm
      · exact List.mem_cons_self l (y :: ls2)
      · exact List.mem_cons_of_mem x (ih l hm)

theorem chain_of_pre (R : List Char → List Char → Prop)
    (a b : List (List Char)) (hc : List.Chain' R b) (hp : a <+: b) :
    List.Chain' R a := by
  obtain ⟨t, ht⟩ := hp
  rw [← ht] at hc
  exact (List.chain'_append.mp hc).1

theorem stripTrailingNil_pre :
    ∀ (ls : List (List Char)), stripTrailingNil ls <+: ls := by
  intro ls
  induction ls with
  | nil => exact ⟨[], rfl⟩
  | cons x ls ih =>
    cases ls with
    | nil =>
      by_cases hx : x = []
      · rw [show stripTrailingNil [x] = [] from by rw [stripTrailingNil, if_pos hx]]
        exact ⟨[x], rfl⟩
      · rw [show stripTrailingNil [x] = [x] from by rw [stripTrailingNil, if_neg hx]]
    | cons y ls2 =>
      rw [stripTrailingNil_cons_ne x (y :: ls2) (List.cons_ne_nil y ls2)]
      obtain ⟨t, ht⟩ := ih
      exact ⟨t, by rw [List.cons_append, ht]⟩

/-- Splitting after prepending a boundary-free line and a newline peels
off exactly that line. -/
theorem pySplitlines_append_newline :
    ∀ (l cs : List Char), (∀ c ∈ l, isLineBoundary c = false) →
      pySplitlines (l ++ '\n' :: cs) = l :: pySplitlines cs := by
  intro l
  induction l with
  | nil =>
    intro cs _
    show pySplitlines ('\n' :: cs) = [] :: pySplitlines cs
    exact pySplitlines_cons_boundary '\n' cs (by decide)
      (fun h => absurd h (by decide))
  | cons c l ih =>
    intro cs hnb
    have hc : isLineBoundary c = false := hnb c (List.mem_cons_self c l)
    have hrest := ih cs (fun x hx => hnb x (List.mem_cons_of_mem c hx))
    rw [List.cons_append]
    exact pySplitlines_cons_nonb_cons c (l ++ '\n' :: cs) l (pySplitlines cs) hc hrest

/-- Splitting a single boundary-free line. -/
theorem pySplitlines_single :
    ∀ (l : List Char), (∀ c ∈ l, isLineBoundary c = false) →
      pySplitlines l = if l = [] then [] else [l] := by
  intro l
  induction l with
  | nil => intro _; rfl
  | cons c l ih =>
    intro hnb
    have hc : isLineBoundary c = false := hnb c (List.mem_cons_self c l)
    rw [if_neg (List.cons_ne_nil c l)]
    by_cases hl : l = []
    · subst hl
      exact pySplitlines_cons_nonb_nil c [] hc rfl
    · have hrec : pySplitlines l = [l] := by
        rw [ih (fun x hx => hnb x (List.mem_cons_of_mem c hx)), if_neg hl]
      exact pySplitlines_cons_nonb_cons c l l [] hc hrec

/-- Round trip: `splitlines ("\n".join ls) = ls` minus one trailing
empty line, for boundary-free lines. -/
theorem split_join :
    ∀ (ls : List (List Char)),
      (∀ l ∈ ls, ∀ c ∈ l, isLineBoundary c = false) →
      pySplitlines (pyJoin ['\n'] ls) = stripTrailingNil ls := by
  intro ls
  induction ls with
  | nil => intro _; rfl
  | cons l ls ih =>
    intro hnb
    cases ls with
    | nil =>
      show pySplitlines l = stripTrailingNil [l]
      rw [pySplitlines_single l (hnb l (List.mem_cons_self l []))]
      rfl
    | cons l2 ls2 =>
      have hj : pyJoin ['\n'] (l :: l2 :: ls2) = l ++ '\n' :: pyJoin ['\n'] (l2 :: ls2) := by
        rw [pyJoin_cons_ne ['\n'] l (l2 :: ls2) (List.cons_ne_nil l2 ls2),
          List.append_assoc]
        rfl
      rw [hj,
        pySplitlines_append_newline l _ (hnb l (List.mem_cons_self l (l2 :: ls2))),
        ih (fun x hx => hnb x (List.mem_cons_of_mem l hx)),
        stripTrailingNil_cons_ne l (l2 :: ls2) (List.cons_ne_nil l2 ls2)]

theorem stripTrailingNil_eq_nil :
    ∀ (ls : List (List Char)), stripTrailingNil ls = [] → ls = [] ∨ ls = [[]] := by
  intro ls h
  cases ls with
  | nil => exact Or.inl rfl
  | cons x ls2 =>
    cases ls2 with
    | nil =>
      by_cases hx : x = []
      · exact Or.inr (by rw [hx])
      · rw [show stripTrailingNil [x] = [x] from by rw [stripTrailingNil, if_neg hx]] at h
        exact absurd h (List.cons_ne_nil x [])
    | cons y ls3 =>
      rw [stripTrailingNil_cons_ne x (y :: ls3) (List.cons_ne_nil y ls3)] at h
      exact absurd h (List.cons_ne_nil x _)

/-- Either the list is the single empty line, or stripping changes
nothing, or the join gains exactly one trailing newline over the join of
the stripped list. -/
theorem join_strip :
    ∀ (ls : List (List Char)),
      ls = [[]] ∨ stripTrailingNil ls = ls ∨
        pyJoin ['\n'] ls = pyJoin ['\n'] (stripTrailingNil ls) ++ ['\n'] := by
  intro ls
  induction ls with
  | nil => exact Or.inr (Or.inl rfl)
  | cons l ls ih =>
    cases ls with
    | nil =>
      by_cases hl : l = []
      · exact Or.inl (by rw [hl])
      · refine Or.inr (Or.inl ?_)
        rw [show stripTrailingNil [l] = [l] from by rw [stripTrailingNil, if_neg hl]]
    | cons l2 ls2 =>
      rcases ih with h1 | h2 | h3
      · refine Or.inr (Or.inr ?_)
        injection h1 with e1 e2
        subst e1
        subst e2
        simp [pyJoin, stripTrailingNil]
      · refine Or.inr (Or.inl ?_)
        rw [stripTrailingNil_cons_ne l (l2 :: ls2) (List.cons_ne_nil l2 ls2), h2]
      · refine Or.inr (Or.inr ?_)
        have hne : stripTrailingNil (l2 :: ls2) ≠ [] := by
          intro h0
          rcases stripTrailingNil_eq_nil (l2 :: ls2) h0 with hc | hc
          · exact absurd hc (List.cons_ne_nil l2 ls2)
          · rw [hc] at h3
            simp [pyJoin, stripTrailingNil] at h3
        rw [stripTrailingNil_cons_ne l (l2 :: ls2) (List.cons_ne_nil l2 ls2),
          pyJoin_cons_ne ['\n'] l (l2 :: ls2) (List.cons_ne_nil l2 ls2),
          pyJoin_cons_ne ['\n'] l (stripTrailingNil (l2 :: ls2)) hne,
          h3, List.append_assoc, List.append_assoc, List.append_assoc]

/-- **C2 counterexample.** Cleanup is not idempotent: `"a\n\n"` cleans to
`"a\n"` (the run of blank lines collapses to one trailing empty line), and
a second application drops the now-trailing newline, giving `"a"`. -/
theorem cleanup_not_idempotent :
    cleanMarkdownText (cleanMarkdownText "a\n\n") ≠ cleanMarkdownText "a\n\n" := by
  decide

/-- **C2 (amended).** Applying the blank-line/trailing-space cleanup pass
twice yields the same result as applying it once, except that when the
once-cleaned text ends with a trailing newline (a trailing empty line kept
by the first pass) the second application additionally drops exactly that
final newline. -/
theorem cleanup_idempotent_amended :
    ∀ s : String,
      cleanMarkdownText (cleanMarkdownText s) = cleanMarkdownText s ∨
      cleanMarkdownText s = cleanMarkdownText (cleanMarkdownText s) ++ "\n" := by
  intro s
  have hnb : ∀ l ∈ cleanLines (pySplitlines s.data) false, ∀ c ∈ l,
      isLineBoundary c = false :=
    cleanLines_no_boundary (pySplitlines s.data) false
      (fun l hl => pySplitlines_no_boundary s.data l hl)
  have hfix : ∀ l ∈ cleanLines (pySplitlines s.data) false, fixLine l = l :=
    fun l hl => cleanLines_fixed (pySplitlines s.data) false l hl
  have hchain := cleanLines_chain (pySplitlines s.data) false
  have hsplit : pySplitlines (cleanMarkdownText s).data
      = stripTrailingNil (cleanLines (pySplitlines s.data) false) :=
    split_join _ hnb
  have hid : cleanLines (stripTrailingNil (cleanLines (pySplitlines s.data) false)) false
      = stripTrailingNil (cleanLines (pySplitlines s.data) false) := by
    apply cleanLines_id
    · intro x hx
      exact hfix x (mem_stripTrailingNil _ x hx)
    · exact chain_of_pre nonConsecBlank _ _ hchain (stripTrailingNil_pre _)
    · intro h
      exact absurd h (by decide)
  have hclean2 : cleanMarkdownText (cleanMarkdownText s)
      = String.mk (pyJoin ['\n']
          (stripTrailingNil (cleanLines (pySplitlines s.data) false))) := by
    show String.mk
        (pyJoin ['\n'] (cleanLines (pySplitlines (cleanMarkdownText s).data) false)) = _
    rw [hsplit, hid]
  rcases join_strip (cleanLines (pySplitlines s.data) false) with h1 | h2 | h3
  · left
    rw [hclean2]
    show String.mk (pyJoin ['\n'] (stripTrailingNil (cleanLines (pySplitlines s.data) false)))
      = String.mk (pyJoin ['\n'] (cleanLines (pySplitlines s.data) false))
    rw [h1]
    rfl
  · left
    rw [hclean2]
    show String.mk (pyJoin ['\n'] (stripTrailingNil (cleanLines (pySplitlines s.data) false)))
      = String.mk (pyJoin ['\n'] (cleanLines (pySplitlines s.data) false))
    rw [h2]
  · right
    rw [hclean2]
    show String.mk (pyJoin ['\n'] (cleanLines (pySplitlines s.data) false))
      = String.mk (pyJoin ['\n'] (stripTrailingNil (cleanLines (pySplitlines s.data) false)))
          ++ "\n"
    rw [h3]
    rfl

/-- **C10.** The cleanup pass preserves line content and order: every
line of the output equals some line of the input or that line with exactly
one trailing whitespace character removed; the output lines form an
in-order sublist of the so-transformed input lines; and the output never
contains two consecutive blank lines. -/
theorem cleanup_line_invariants :
    ∀ s : String,
      (∀ l2 ∈ pySplitlines (cleanMarkdownText s).data,
        ∃ l ∈ pySplitlines s.data,
          l2 = l ∨ ∃ c, isPySpace c = true ∧ l = l2 ++ [c]) ∧
      List.Sublist (pySplitlines (cleanMarkdownText s).data)
        ((pySplitlines s.data).map fixLine) ∧
      List.Chain' nonConsecBlank (pySplitlines (cleanMarkdownText s).data) := by
  intro s
  have hnb : ∀ l ∈ cleanLines (pySplitlines s.data) false, ∀ c ∈ l,
      isLineBoundary c = false :=
    cleanLines_no_boundary (pySplitlines s.data) false
      (fun l hl => pySplitlines_no_boundary s.data l hl)
  have hsplit : pySplitlines (cleanMarkdownText s).data
      = stripTrailingNil (cleanLines (pySplitlines s.data) false) :=
    split_join _ hnb
  rw [hsplit]
  refine ⟨?_, ?_, ?_⟩
  · intro l2 hl2
    have hmem := mem_stripTrailingNil _ l2 hl2
    obtain ⟨l, hm, he⟩ := cleanLines_origin (pySplitlines s.data) false l2 hmem
    refine ⟨l, hm, ?_⟩
    by_cases hfl : fixLine l = l
    · left
      rw [he, hfl]
    · right
      obtain ⟨c, hc1, hc2⟩ := fixLine_drop_one l hfl
      exact ⟨c, hc1, by rw [he]; exact hc2⟩
  · exact ((stripTrailingNil_pre _).sublist).trans
      (cleanLines_sublist (pySplitlines s.data) false)
  · exact chain_of_pre nonConsecBlank _ _
      (cleanLines_chain (pySplitlines s.data) false) (stripTrailingNil_pre _)

theorem cleanup_line_invariants_witness :
    ∃ l ∈ pySplitlines "ab \ncd".data,
      "ab".data = l ∨ ∃ c, isPySpace c = true ∧ l = "ab".data ++ [c] :=
  (cleanup_line_invariants "ab \ncd").1 "ab".data (by decide)

theorem parse_failure_policy_witness :
    parseProblemData "u"
        ⟨some (String.mk ['f', '(', quoteChar, 'x', quoteChar, ')']),
         ["USACO 2023 December Contest, Bronze", "Problem 2. Hoofball"], none⟩ =
      Except.ok
        ⟨"u", USACO_BASE_URL ++ String.mk ['x'],
         "USACO 2023 December Contest, Bronze", "Problem 2. Hoofball",
         String.mk ((splitOnChar ' ' "USACO 2023 December Contest, Bronze".data).getLastD []),
         "P2_2023-Hoofball",
         formatProblem "USACO 2023 December Contest, Bronze"
           (USACO_BASE_URL ++ String.mk ['x']) "Problem 2. Hoofball" "u"
           "Problem text not found."⟩ :=
  (parse_failure_policy "u"
      ⟨some (String.mk ['f', '(', quoteChar, 'x', quoteChar, ')']),
       ["USACO 2023 December Contest, Bronze", "Problem 2. Hoofball"], none⟩).2.2
    rfl |>.2 (String.mk ['f', '(', quoteChar, 'x', quoteChar, ')']) ['x']
    "USACO 2023 December Contest, Bronze" "Problem 2. Hoofball" [] "P2_2023-Hoofball"
    rfl (by decide) rfl (by decide)

end Scraper
